import Mathlib

/-!
Verification development for `5090TempWatch.py`: the serial-line temperature
monitor.  The definitions below are a shallow embedding of the source:
strings are modelled as `List Char`, Python `float` temperatures as `ℚ`,
wall-clock instants as `ℤ` (seconds), and the mutable fields of the
`TemperatureMonitor` object as an explicit state record threaded through a
step function.  I/O performed by the program (text-to-speech, log-file
writes, console prints, the OS shutdown command) is reified as a list of
abstract `Action` signals emitted by each step.
-/

namespace TempWatch

/-- `numberOfThermistors = 8` in the source (global configuration). -/
def numberOfThermistors : Nat := 8

/-- `self.window_minutes = 10` — retention window in minutes. -/
def window_minutes : Nat := 10

/-- `self.data_points = self.window_minutes * 120` — ring-buffer capacity
used for every `deque(maxlen=...)` in `__init__`. -/
def data_points : Nat := window_minutes * 120

/-! ### String helpers mirroring the Python string operations used in
`read_serial`: `str.split(':')`, `str.split()`, `str.strip()`,
`str.replace('C','')`, `int(...)`, `float(...)`. -/

/-- Helper for `splitOnChar`; `acc` is the current field, reversed. -/
def splitOnAux (c : Char) : List Char → List Char → List (List Char)
  | [], acc => [acc.reverse]
  | x :: xs, acc =>
      if x = c then acc.reverse :: splitOnAux c xs []
      else splitOnAux c xs (x :: acc)

/-- Python `str.split(c)` for a one-character separator: splits at every
occurrence of `c`, keeping empty fields. -/
def splitOnChar (c : Char) (s : List Char) : List (List Char) :=
  splitOnAux c s []

/-- Helper for `pysplit`; splits at every whitespace character. -/
def splitWSAux : List Char → List Char → List (List Char)
  | [], acc => [acc.reverse]
  | x :: xs, acc =>
      if x.isWhitespace then acc.reverse :: splitWSAux xs []
      else splitWSAux xs (x :: acc)

/-- Python `str.split()` (no argument): split on runs of whitespace,
discarding empty fields. -/
def pysplit (s : List Char) : List (List Char) :=
  (splitWSAux s []).filter (· ≠ [])

/-- Python `str.strip()`: drop leading and trailing whitespace. -/
def pytrim (s : List Char) : List Char :=
  ((s.dropWhile Char.isWhitespace).reverse.dropWhile Char.isWhitespace).reverse

/-- Value of a digit string, most significant digit first. -/
def natOfDigits (cs : List Char) : Nat :=
  cs.foldl (fun a c => 10 * a + (c.toNat - 48)) 0

/-- Parse a non-empty all-digit string, else `none`. -/
def parseDigits (cs : List Char) : Option Nat :=
  if cs ≠ [] ∧ cs.all Char.isDigit then some (natOfDigits cs) else none

/-- Python `int(token)` restricted to the wire alphabet: an optional sign
followed by decimal digits.  (Python's underscore separators and embedded
whitespace do not occur in whitespace-split tokens.) -/
def parseInt (cs : List Char) : Option ℤ :=
  match cs with
  | [] => none
  | c :: rest =>
      if c = '-' then (parseDigits rest).map (fun n : Nat => -(n : ℤ))
      else if c = '+' then (parseDigits rest).map (fun n : Nat => (n : ℤ))
      else (parseDigits cs).map (fun n : Nat => (n : ℤ))

/-- Unsigned part of Python `float(token)` for plain decimal literals:
`digits`, `digits.digits`, `digits.` or `.digits` (at least one digit).
Scientific notation and `inf`/`nan`, which never occur on this wire,
are modelled as parse failures. -/
def parseUnsignedRat (cs : List Char) : Option ℚ :=
  match splitOnChar '.' cs with
  | [ip] => (parseDigits ip).map (fun n : Nat => (n : ℚ))
  | [ip, fp] =>
      if (ip ≠ [] ∨ fp ≠ []) ∧ ip.all Char.isDigit ∧ fp.all Char.isDigit then
        some ((natOfDigits ip : ℚ) + (natOfDigits fp : ℚ) / (10 : ℚ) ^ fp.length)
      else none
  | _ => none

/-- Python `float(token)` with an optional leading sign. -/
def parseRat (cs : List Char) : Option ℚ :=
  match cs with
  | [] => none
  | c :: rest =>
      if c = '-' then (parseUnsignedRat rest).map (fun v => -v)
      else if c = '+' then parseUnsignedRat rest
      else parseUnsignedRat cs

/-- Outcome of decoding one raw serial line, mirroring the control paths of
the parsing block of `read_serial` (lines 335–386). -/
inductive ParseResult where
  /-- `0 <= temp_num < numberOfThermistors` and both fields parsed. -/
  | ok (sensor : Nat) (value : ℚ)
  /-- the stripped line is empty: `if line:` fails, nothing happens. -/
  | empty
  /-- `len(parts) != 2`: the body is silently skipped (no `else` branch). -/
  | wrongFieldCount
  /-- `parts[0].split()[1]` raises `IndexError`, which escapes the inner
  `except ValueError` and is caught by the outer handler as a serial error. -/
  | indexError
  /-- `int(...)` or `float(...)` raises `ValueError`: caught and logged. -/
  | valueError
  /-- parsed fields but the sensor index fails `0 <= temp_num < N`:
  `print(f"Invalid sensor number: ...")`, console only. -/
  | sensorOutOfRange
deriving DecidableEq

/-- The two-field case of decoding (`len(parts) == 2`):
`temp_num = int(parts[0].split()[1])`;
`temp_value = float(parts[1].replace('C', '').strip())`;
`if 0 <= temp_num < numberOfThermistors:`. -/
def decodeFields (p0 p1 : List Char) : ParseResult :=
  match (pysplit p0).get? 1 with
  | none => .indexError
  | some tok =>
      match parseInt tok with
      | none => .valueError
      | some n =>
          match parseRat (pytrim (p1.filter (· ≠ 'C'))) with
          | none => .valueError
          | some v =>
              if 0 ≤ n ∧ n < (numberOfThermistors : ℤ) then .ok n.toNat v
              else .sensorOutOfRange

/-- Decode one raw line exactly as `read_serial` does:
`line = raw.strip()`; `if line:`; `parts = line.split(':')`;
`if len(parts) == 2:` then the two-field case, else the silent drop. -/
def decodeL (raw : List Char) : ParseResult :=
  let line := pytrim raw
  if line = [] then .empty
  else
    match splitOnChar ':' line with
    | [p0, p1] => decodeFields p0 p1
    | _ => .wrongFieldCount

/-- Decode at `String` type. -/
def decode (raw : String) : ParseResult := decodeL raw.toList

/-- `true` exactly on successfully decoded readings. -/
def ParseResult.isOk : ParseResult → Bool
  | .ok _ _ => true
  | _ => false

/-! ### The monitor state machine -/

/-- The observable signals the monitor emits while processing a line.  Each
constructor stands for one I/O effect of the source. -/
inductive Action where
  /-- `shutdown_system`: log the critical event, speak the final warning and
  issue the OS shutdown command. -/
  | shutdown
  /-- `speak_warning(..., 'warning2')` actually speaking (≥ 90° tier). -/
  | warn
  /-- `speak_warning(..., 'warning1')` actually speaking (≥ 80° tier). -/
  | caution
  /-- the `except ValueError` handler writing `ERROR: Parse error` to the log. -/
  | parseErrorLogged
  /-- the outer `except Exception` handler writing `ERROR: Serial error`
  to the log (reached via `IndexError` from `parts[0].split()[1]`). -/
  | serialErrorLogged
  /-- `print(f"Invalid sensor number: ...")` — console only, not the log. -/
  | invalidSensorPrinted
deriving DecidableEq

/-- The mutable fields of `TemperatureMonitor` that the ingestion loop
reads or writes, plus the `temps` scratch array local to `read_serial`. -/
structure MonState where
  /-- `temps = [-999] * numberOfThermistors` (local to `read_serial`). -/
  temps : List ℚ
  /-- `self.temp_history`: one `deque(maxlen=data_points)` per sensor. -/
  temp_history : List (List ℚ)
  /-- `self.time_history`: shared cycle-timestamp `deque(maxlen=data_points)`. -/
  time_history : List ℤ
  /-- `self.readings_count`. -/
  readings_count : Nat
  /-- `self.last_warning_time['warning1']` (80° tier, 60 s interval). -/
  lastWarning1 : ℤ
  /-- `self.last_warning_time['warning2']` (90° tier, 10 s interval). -/
  lastWarning2 : ℤ
  /-- `self.running`. -/
  running : Bool
deriving DecidableEq

/-- The state at the top of `read_serial`: empty histories, `temps` filled
with the `-999` sentinel, both rate-limit timestamps `0`, `running = True`. -/
def initState : MonState :=
  { temps := List.replicate numberOfThermistors (-999)
    temp_history := List.replicate numberOfThermistors []
    time_history := []
    readings_count := 0
    lastWarning1 := 0
    lastWarning2 := 0
    running := true }

/-- Append to a `deque(maxlen := cap)`: once full, the oldest entries are
evicted from the left. -/
def dequeAppend (cap : Nat) (xs : List α) (x : α) : List α :=
  let ys := xs ++ [x]
  if cap < ys.length then ys.drop (ys.length - cap) else ys

/-- The two keys of `self.last_warning_time`. -/
inductive WarningType where
  | warning1
  | warning2
deriving DecidableEq

/-- `speak_warning(message, warning_type)`: speak (emit the action) only if
the tier's minimum re-announcement interval has elapsed, and record the
announcement time.  `warning1` (80 °C) re-announces every 60 s, `warning2`
(90 °C) every 10 s. -/
def speak_warning (s : MonState) (warning_type : WarningType) (now : ℤ) :
    MonState × List Action :=
  match warning_type with
  | .warning1 =>
      if 60 ≤ now - s.lastWarning1 then
        ({ s with lastWarning1 := now }, [.caution])
      else (s, [])
  | .warning2 =>
      if 10 ≤ now - s.lastWarning2 then
        ({ s with lastWarning2 := now }, [.warn])
      else (s, [])

/-- `shutdown_system()`: logs the critical event, speaks, issues the OS
shutdown command and ends in `quit_app`, which sets `running = False` and
calls `os._exit(0)` — so on the normal path the rest of the loop iteration
(and every later iteration) never runs. -/
def shutdown_system (s : MonState) : MonState × List Action :=
  ({ s with running := false }, [.shutdown])

/-- One iteration of the body of `read_serial` on an already-decoded line:
store the raw value in `temps`, run the tier checks (`>= 100` shutdown,
`elif >= 90` warning2, `elif >= 80` warning1), then append to the sensor's
history and — only when the sensor is the last one of a cycle — append the
current time to `time_history` and bump `readings_count`. -/
def stepR (s : MonState) (p : ParseResult) (now : ℤ) : MonState × List Action :=
  match p with
  | .empty => (s, [])
  | .wrongFieldCount => (s, [])
  | .indexError => (s, [.serialErrorLogged])
  | .valueError => (s, [.parseErrorLogged])
  | .sensorOutOfRange => (s, [.invalidSensorPrinted])
  | .ok temp_num temp_value =>
      let s0 := { s with temps := s.temps.set temp_num temp_value }
      if 100 ≤ temp_value then
        shutdown_system s0
      else
        let r1 :=
          if 90 ≤ temp_value then speak_warning s0 .warning2 now
          else if 80 ≤ temp_value then speak_warning s0 .warning1 now
          else (s0, [])
        let s2 :=
          { r1.1 with
              temp_history :=
                r1.1.temp_history.set temp_num
                  (dequeAppend data_points (r1.1.temp_history.getD temp_num [])
                    temp_value) }
        let s3 :=
          if temp_num = numberOfThermistors - 1 then
            { s2 with
                time_history := dequeAppend data_points s2.time_history now
                readings_count := s2.readings_count + 1 }
          else s2
        (s3, r1.2)

/-- One loop iteration on a raw line: decode, then run the body. -/
def stepLine (s : MonState) (raw : String) (now : ℤ) : MonState × List Action :=
  stepR s (decode raw) now

/-- Run the loop over a list of already-decoded events `(result, time)`,
collecting the emitted actions tagged with the time of their event.  The
loop runs only `while self.running`; once `running` is false (the process
has exited through `shutdown_system`/`quit_app`), nothing more happens. -/
def runR (s : MonState) : List (ParseResult × ℤ) → MonState × List (Action × ℤ)
  | [] => (s, [])
  | (p, t) :: rest =>
      if s.running then
        let r := stepR s p t
        let r2 := runR r.1 rest
        (r2.1, r.2.map (fun a => (a, t)) ++ r2.2)
      else (s, [])

/-- `read_serial`: the ingestion loop over raw lines with their arrival
times. -/
def read_serial (s : MonState) (lines : List (String × ℤ)) :
    MonState × List (Action × ℤ) :=
  runR s (lines.map (fun e => (decode e.1, e.2)))

/-! ### Trace observations -/

/-- Times of the emitted `warn` actions, in emission order. -/
def warnTimes (tr : List (Action × ℤ)) : List ℤ :=
  (tr.filter (fun a => a.1 = Action.warn)).map Prod.snd

/-- Times of the emitted `caution` actions, in emission order. -/
def cautionTimes (tr : List (Action × ℤ)) : List ℤ :=
  (tr.filter (fun a => a.1 = Action.caution)).map Prod.snd

/-- Number of `shutdown` actions in a trace. -/
def shutdownCount (tr : List (Action × ℤ)) : Nat :=
  (tr.filter (fun a => a.1 = Action.shutdown)).length

/-- A decoded line that takes the `temp_value >= 100` shutdown branch. -/
def isCritical : ParseResult → Bool
  | .ok _ v => decide (100 ≤ v)
  | _ => false

/-- The error-report actions of each failed decode path. -/
def errActions : ParseResult → List Action
  | .ok _ _ => []
  | .empty => []
  | .wrongFieldCount => []
  | .indexError => [.serialErrorLogged]
  | .valueError => [.parseErrorLogged]
  | .sensorOutOfRange => [.invalidSensorPrinted]

/-- `a` precedes `b` by at least `d`. -/
def gapGE (d : ℤ) (a b : ℤ) : Prop := a + d ≤ b

instance : IsTrans ℤ (gapGE 10) where
  trans a b c hab hbc := by
    unfold gapGE at *
    omega

instance : IsTrans ℤ (gapGE 60) where
  trans a b c hab hbc := by
    unfold gapGE at *
    omega

instance (d a b : ℤ) : Decidable (gapGE d a b) := by
  unfold gapGE
  infer_instance

/-! ### Structural lemmas about one loop iteration -/

theorem stepR_err (s : MonState) (p : ParseResult) (now : ℤ)
    (h : p.isOk = false) : stepR s p now = (s, errActions p) := by
  cases p <;> simp_all [stepR, ParseResult.isOk, errActions]

theorem stepR_ok_crit (s : MonState) (n : Nat) (v : ℚ) (now : ℤ)
    (h : 100 ≤ v) :
    stepR s (.ok n v) now =
      ({ s with temps := s.temps.set n v, running := false },
       [Action.shutdown]) := by
  simp [stepR, shutdown_system, h]

/-- Alert-relevant components of a successful step: the emitted actions, the
two rate-limit timestamps and the `running` flag, by tier band. -/
theorem stepR_ok_alert (s : MonState) (n : Nat) (v : ℚ) (now : ℤ) :
    ((stepR s (.ok n v) now).2,
     (stepR s (.ok n v) now).1.lastWarning1,
     (stepR s (.ok n v) now).1.lastWarning2,
     (stepR s (.ok n v) now).1.running) =
      if 100 ≤ v then ([Action.shutdown], s.lastWarning1, s.lastWarning2, false)
      else if 90 ≤ v then
        (if 10 ≤ now - s.lastWarning2 then
          ([Action.warn], s.lastWarning1, now, s.running)
        else ([], s.lastWarning1, s.lastWarning2, s.running))
      else if 80 ≤ v then
        (if 60 ≤ now - s.lastWarning1 then
          ([Action.caution], now, s.lastWarning2, s.running)
        else ([], s.lastWarning1, s.lastWarning2, s.running))
      else ([], s.lastWarning1, s.lastWarning2, s.running) := by
  simp only [stepR, shutdown_system, speak_warning]
  split_ifs <;> simp

/-- Store-relevant components of a successful, non-critical step: the raw
`temps` slot, the sensor's history, the shared timestamp buffer, the cycle
counter and the `running` flag. -/
theorem stepR_ok_store (s : MonState) (n : Nat) (v : ℚ) (now : ℤ)
    (h : v < 100) :
    (stepR s (.ok n v) now).1.temps = s.temps.set n v ∧
    (stepR s (.ok n v) now).1.temp_history =
      s.temp_history.set n
        (dequeAppend data_points (s.temp_history.getD n []) v) ∧
    (stepR s (.ok n v) now).1.time_history =
      (if n = numberOfThermistors - 1 then
        dequeAppend data_points s.time_history now
      else s.time_history) ∧
    (stepR s (.ok n v) now).1.readings_count =
      (if n = numberOfThermistors - 1 then s.readings_count + 1
       else s.readings_count) ∧
    (stepR s (.ok n v) now).1.running = s.running := by
  have h100 : ¬ (100 ≤ v) := not_le.mpr h
  simp only [stepR, speak_warning, h100, if_false]
  split_ifs <;> simp

theorem runR_not_running (s : MonState) (evs : List (ParseResult × ℤ))
    (h : s.running = false) : runR s evs = (s, []) := by
  cases evs with
  | nil => rfl
  | cons e rest => simp [runR, h]

/-- A step on a non-critical decode result emits no `shutdown` and leaves
`running` unchanged. -/
theorem stepR_noncrit (s : MonState) (p : ParseResult) (now : ℤ)
    (h : isCritical p = false) :
    Action.shutdown ∉ (stepR s p now).2 ∧
    (stepR s p now).1.running = s.running := by
  cases p with
  | ok n v =>
      have hv : ¬ (100 ≤ v) := by simpa [isCritical] using h
      have halert := stepR_ok_alert s n v now
      rw [if_neg hv] at halert
      have hst := stepR_ok_store s n v now (not_le.mp hv)
      refine ⟨?_, hst.2.2.2.2⟩
      split_ifs at halert <;>
        simp only [Prod.mk.injEq] at halert <;>
        simp [halert.1]
  | empty => simp [stepR]
  | wrongFieldCount => simp [stepR]
  | indexError => simp [stepR]
  | valueError => simp [stepR]
  | sensorOutOfRange => simp [stepR]

theorem shutdownCount_append (a b : List (Action × ℤ)) :
    shutdownCount (a ++ b) = shutdownCount a + shutdownCount b := by
  simp [shutdownCount, List.filter_append]

theorem shutdownCount_map (as : List Action) (t : ℤ)
    (h : Action.shutdown ∉ as) :
    shutdownCount (as.map (fun a => (a, t))) = 0 := by
  induction as with
  | nil => rfl
  | cons a rest ih =>
      rw [List.mem_cons, not_or] at h
      have ha : ¬ ((a, t).1 = Action.shutdown) := by
        simpa using fun hEq => h.1 hEq.symm
      simp only [List.map_cons, shutdownCount, List.filter_cons,
        decide_eq_true_eq]
      rw [if_neg ha]
      exact ih h.2

/-- Core of C1: from a live state, the number of `shutdown` actions is one
exactly when some event takes the critical branch, else zero. -/
theorem runR_shutdown_count (evs : List (ParseResult × ℤ)) :
    ∀ s : MonState, s.running = true →
      shutdownCount (runR s evs).2 =
        if evs.any (fun e => isCritical e.1) then 1 else 0 := by
  induction evs with
  | nil => intro s _; simp [runR, shutdownCount]
  | cons e rest ih =>
      intro s hs
      obtain ⟨p, t⟩ := e
      simp only [runR, hs, if_true]
      by_cases hc : isCritical p = true
      · have hpv : ∃ n v, p = ParseResult.ok n v ∧ (100 : ℚ) ≤ v := by
          cases p with
          | ok n v => exact ⟨n, v, rfl, by simpa [isCritical] using hc⟩
          | empty => simp [isCritical] at hc
          | wrongFieldCount => simp [isCritical] at hc
          | indexError => simp [isCritical] at hc
          | valueError => simp [isCritical] at hc
          | sensorOutOfRange => simp [isCritical] at hc
        obtain ⟨n, v, hp, hv⟩ := hpv
        subst hp
        have hnr := runR_not_running
          { s with temps := s.temps.set n v, running := false } rest rfl
        rw [stepR_ok_crit s n v t hv, hnr]
        simp [shutdownCount, List.filter_cons, isCritical, hv]
      · have hcf : isCritical p = false := by simpa using hc
        obtain ⟨hns, hrun⟩ := stepR_noncrit s p t hcf
        rw [shutdownCount_append, shutdownCount_map _ _ hns,
          ih _ (hrun.trans hs)]
        simp only [List.any_cons, hcf, Bool.false_or, Nat.zero_add]

/-! ### Claim theorems -/

/-- **C1**: the `Shutdown` action is one-shot: over any sequence of incoming
lines, exactly one `shutdown` is emitted when some line decodes to a reading
at or above the 100° critical threshold (the first such reading fires it and
the process then stops running, so no later critical reading can fire a
second one), and none is emitted otherwise. -/
theorem shutdown_one_shot (lines : List (String × ℤ)) :
    shutdownCount (read_serial initState lines).2 =
      if lines.any (fun e => isCritical (decode e.1)) then 1 else 0 := by
  have hc : ∀ ls : List (String × ℤ),
      (ls.map (fun e => (decode e.1, e.2))).any (fun e => isCritical e.1) =
        ls.any (fun e => isCritical (decode e.1)) := by
    intro ls
    induction ls with
    | nil => rfl
    | cons a rest ih => simp [List.any_cons, ih]
  have h := runR_shutdown_count (lines.map (fun e => (decode e.1, e.2)))
    initState rfl
  rw [read_serial, h, hc lines]

/-- **C10**: a reading at or above the critical threshold takes the shutdown
path before the recording code runs: the sensor histories, the shared
timestamp buffer and the cycle counter are left unchanged (even when the
reading completes a sampling cycle), only `shutdown` is emitted, and the
loop stops. -/
theorem shutdown_preempts_record (s : MonState) (raw : String) (now : ℤ)
    (n : Nat) (v : ℚ) (hdec : decode raw = .ok n v) (hv : 100 ≤ v) :
    (stepLine s raw now).1.temp_history = s.temp_history ∧
    (stepLine s raw now).1.time_history = s.time_history ∧
    (stepLine s raw now).1.readings_count = s.readings_count ∧
    (stepLine s raw now).2 = [Action.shutdown] ∧
    (stepLine s raw now).1.running = false := by
  rw [stepLine, hdec, stepR_ok_crit s n v now hv]
  exact ⟨rfl, rfl, rfl, rfl, rfl⟩

/-- Witness for C10 at the cycle-completing sensor 7 and value 101°. -/
theorem shutdown_preempts_record_witness :
    (stepLine initState "Temp 7 : 101C" 5).1.temp_history =
      initState.temp_history ∧
    (stepLine initState "Temp 7 : 101C" 5).1.time_history =
      initState.time_history ∧
    (stepLine initState "Temp 7 : 101C" 5).1.readings_count =
      initState.readings_count ∧
    (stepLine initState "Temp 7 : 101C" 5).2 = [Action.shutdown] ∧
    (stepLine initState "Temp 7 : 101C" 5).1.running = false :=
  shutdown_preempts_record initState "Temp 7 : 101C" 5 7 101 (by decide)
    (by norm_num)

/-- **C5**: per evaluation of one accepted reading, at most one tier's
action results, the highest tier whose threshold is met wins, and a tier's
firing leaves the other tiers' rate-limit timestamps unchanged. -/
theorem tier_exclusive (s : MonState) (n : Nat) (v : ℚ) (now : ℤ) :
    (stepR s (.ok n v) now).2.length ≤ 1 ∧
    (100 ≤ v → (stepR s (.ok n v) now).2 = [Action.shutdown] ∧
      (stepR s (.ok n v) now).1.lastWarning1 = s.lastWarning1 ∧
      (stepR s (.ok n v) now).1.lastWarning2 = s.lastWarning2) ∧
    (90 ≤ v → v < 100 →
      ((stepR s (.ok n v) now).2 = [Action.warn] ∨
        (stepR s (.ok n v) now).2 = []) ∧
      (stepR s (.ok n v) now).1.lastWarning1 = s.lastWarning1) ∧
    (80 ≤ v → v < 90 →
      ((stepR s (.ok n v) now).2 = [Action.caution] ∨
        (stepR s (.ok n v) now).2 = []) ∧
      (stepR s (.ok n v) now).1.lastWarning2 = s.lastWarning2) ∧
    (v < 80 → (stepR s (.ok n v) now).2 = [] ∧
      (stepR s (.ok n v) now).1.lastWarning1 = s.lastWarning1 ∧
      (stepR s (.ok n v) now).1.lastWarning2 = s.lastWarning2) := by
  have h := stepR_ok_alert s n v now
  by_cases h100 : 100 ≤ v
  · rw [if_pos h100] at h
    simp only [Prod.mk.injEq] at h
    obtain ⟨ha, h1, h2, hr⟩ := h
    exact ⟨by simp [ha], fun _ => ⟨ha, h1, h2⟩,
      fun _ hlt => absurd h100 (not_le.mpr hlt),
      fun _ hlt => absurd h100 (not_le.mpr (hlt.trans_le (by norm_num))),
      fun hlt => absurd h100 (not_le.mpr (hlt.trans_le (by norm_num)))⟩
  · rw [if_neg h100] at h
    by_cases h90 : 90 ≤ v
    · rw [if_pos h90] at h
      by_cases hg : 10 ≤ now - s.lastWarning2
      · rw [if_pos hg] at h
        simp only [Prod.mk.injEq] at h
        obtain ⟨ha, h1, h2, hr⟩ := h
        exact ⟨by simp [ha], fun hc => absurd hc h100,
          fun _ _ => ⟨Or.inl ha, h1⟩,
          fun _ h90' => absurd h90 (not_le.mpr h90'),
          fun hlt => absurd h90 (not_le.mpr (hlt.trans_le (by norm_num)))⟩
      · rw [if_neg hg] at h
        simp only [Prod.mk.injEq] at h
        obtain ⟨ha, h1, h2, hr⟩ := h
        exact ⟨by simp [ha], fun hc => absurd hc h100,
          fun _ _ => ⟨Or.inr ha, h1⟩,
          fun _ h90' => absurd h90 (not_le.mpr h90'),
          fun hlt => absurd h90 (not_le.mpr (hlt.trans_le (by norm_num)))⟩
    · rw [if_neg h90] at h
      by_cases h80 : 80 ≤ v
      · rw [if_pos h80] at h
        by_cases hg : 60 ≤ now - s.lastWarning1
        · rw [if_pos hg] at h
          simp only [Prod.mk.injEq] at h
          obtain ⟨ha, h1, h2, hr⟩ := h
          exact ⟨by simp [ha], fun hc => absurd hc h100,
            fun h90' _ => absurd h90' h90,
            fun _ _ => ⟨Or.inl ha, h2⟩,
            fun hlt => absurd h80 (not_le.mpr hlt)⟩
        · rw [if_neg hg] at h
          simp only [Prod.mk.injEq] at h
          obtain ⟨ha, h1, h2, hr⟩ := h
          exact ⟨by simp [ha], fun hc => absurd hc h100,
            fun h90' _ => absurd h90' h90,
            fun _ _ => ⟨Or.inr ha, h2⟩,
            fun hlt => absurd h80 (not_le.mpr hlt)⟩
      · rw [if_neg h80] at h
        simp only [Prod.mk.injEq] at h
        obtain ⟨ha, h1, h2, hr⟩ := h
        exact ⟨by simp [ha], fun hc => absurd hc h100,
          fun h90' _ => absurd h90' h90,
          fun h80' _ => absurd h80' h80,
          fun _ => ⟨ha, h1, h2⟩⟩

/-- Witness for C5 at a Warn-band reading (95°) from the initial state. -/
theorem tier_exclusive_witness :
    (stepR initState (.ok 0 95) 0).2.length ≤ 1 ∧
    (100 ≤ (95 : ℚ) → (stepR initState (.ok 0 95) 0).2 = [Action.shutdown] ∧
      (stepR initState (.ok 0 95) 0).1.lastWarning1 = initState.lastWarning1 ∧
      (stepR initState (.ok 0 95) 0).1.lastWarning2 = initState.lastWarning2) ∧
    (90 ≤ (95 : ℚ) → (95 : ℚ) < 100 →
      ((stepR initState (.ok 0 95) 0).2 = [Action.warn] ∨
        (stepR initState (.ok 0 95) 0).2 = []) ∧
      (stepR initState (.ok 0 95) 0).1.lastWarning1 = initState.lastWarning1) ∧
    (80 ≤ (95 : ℚ) → (95 : ℚ) < 90 →
      ((stepR initState (.ok 0 95) 0).2 = [Action.caution] ∨
        (stepR initState (.ok 0 95) 0).2 = []) ∧
      (stepR initState (.ok 0 95) 0).1.lastWarning2 = initState.lastWarning2) ∧
    ((95 : ℚ) < 80 → (stepR initState (.ok 0 95) 0).2 = [] ∧
      (stepR initState (.ok 0 95) 0).1.lastWarning1 = initState.lastWarning1 ∧
      (stepR initState (.ok 0 95) 0).1.lastWarning2 = initState.lastWarning2) :=
  tier_exclusive initState 0 95 0

/-- **C2 (counterexample)**: the code performs no plausible-range
validation.  The line `Temp 0 : -30C` (value −30°, below the claimed
−20..150 range) is decoded as a valid reading, its value is stored in
sensor 0's history, and the line `Temp 0 : 200C` (200°, above the range) is
not rejected either — it takes the alert path and fires `shutdown`. -/
theorem no_plausible_range_counterexample :
    decode "Temp 0 : -30C" = ParseResult.ok 0 (-30) ∧
    (stepLine initState "Temp 0 : -30C" 0).1.temp_history.getD 0 [] =
      [(-30 : ℚ)] ∧
    (stepLine initState "Temp 0 : -30C" 0).2 = [] ∧
    decode "Temp 0 : 200C" = ParseResult.ok 0 200 ∧
    (stepLine initState "Temp 0 : 200C" 0).2 = [Action.shutdown] := by
  decide

/-- **C2 (amended)**: decoding accepts any parseable numeric value with a
valid sensor index, with no plausible-range check: a value outside
−20..150 is not rejected — below the critical threshold it is appended to
the sensor's history, and at or above 100° it fires the shutdown path. -/
theorem no_plausible_range_amended (s : MonState) (raw : String) (now : ℤ)
    (n : Nat) (v : ℚ) (hdec : decode raw = .ok n v)
    (houtside : v < -20 ∨ 150 < v) :
    (100 ≤ v → (stepLine s raw now).2 = [Action.shutdown]) ∧
    (v < 100 →
      (stepLine s raw now).1.temp_history =
        s.temp_history.set n
          (dequeAppend data_points (s.temp_history.getD n []) v)) := by
  constructor
  · intro hv
    rw [stepLine, hdec, stepR_ok_crit s n v now hv]
  · intro hv
    rw [stepLine, hdec]
    exact (stepR_ok_store s n v now hv).2.1

/-- Witness for the amended C2 at the implausible value −30°. -/
theorem no_plausible_range_amended_witness :
    (100 ≤ (-30 : ℚ) →
      (stepLine initState "Temp 0 : -30C" 0).2 = [Action.shutdown]) ∧
    ((-30 : ℚ) < 100 →
      (stepLine initState "Temp 0 : -30C" 0).1.temp_history =
        initState.temp_history.set 0
          (dequeAppend data_points (initState.temp_history.getD 0 [])
            (-30))) :=
  no_plausible_range_amended initState "Temp 0 : -30C" 0 0 (-30) (by decide)
    (Or.inl (by norm_num))

/-- **C6 (counterexample)**: a line with the wrong field count is *not*
reported anywhere — `read_serial` has no `else` branch for
`len(parts) == 2`, so the line `garbage` is dropped with no action emitted
at all (the state is untouched, but the claimed error report never
happens). -/
theorem silent_drop_counterexample :
    decode "garbage" = ParseResult.wrongFieldCount ∧
    stepLine initState "garbage" 0 = (initState, []) := by
  decide

/-- **C6 (amended)**: every line that fails to decode leaves the whole
monitor state unchanged and is dropped, but the reporting depends on the
failure kind: unparsable numbers are logged as parse errors, a missing
index token is logged by the outer handler as a serial error, an
out-of-range sensor index is only printed to the console, and a wrong
field count (or empty line) is silently ignored. -/
theorem decode_failure_frame (s : MonState) (raw : String) (now : ℤ)
    (h : (decode raw).isOk = false) :
    stepLine s raw now = (s, errActions (decode raw)) := by
  rw [stepLine, stepR_err s (decode raw) now h]

/-- Witness for the amended C6 at an out-of-range sensor index. -/
theorem decode_failure_frame_witness :
    stepLine initState "Temp 9 : 40C" 0 =
      (initState, errActions (decode "Temp 9 : 40C")) :=
  decode_failure_frame initState "Temp 9 : 40C" 0 (by decide)

/-! ### Rate limiting (C4) -/

theorem warnTimes_append (a b : List (Action × ℤ)) :
    warnTimes (a ++ b) = warnTimes a ++ warnTimes b := by
  simp [warnTimes, List.filter_append]

theorem cautionTimes_append (a b : List (Action × ℤ)) :
    cautionTimes (a ++ b) = cautionTimes a ++ cautionTimes b := by
  simp [cautionTimes, List.filter_append]

/-- Along any run, the announcement times of the 90° tier ascend by at
least 10 seconds, chained from the stored `lastWarning2` timestamp. -/
theorem warn_times_chain (evs : List (ParseResult × ℤ)) :
    ∀ s : MonState,
      List.Chain (gapGE 10) s.lastWarning2 (warnTimes (runR s evs).2) := by
  induction evs with
  | nil =>
      intro s
      exact List.Chain.nil
  | cons e rest ih =>
      intro s
      obtain ⟨p, t⟩ := e
      by_cases hr : s.running = true
      · simp only [runR, hr, if_true]
        rw [warnTimes_append]
        match p with
        | .empty | .wrongFieldCount | .indexError | .valueError
        | .sensorOutOfRange =>
            rw [stepR_err s _ t (by simp [ParseResult.isOk])]
            simpa [errActions, warnTimes] using ih s
        | .ok n v =>
            by_cases h100 : 100 ≤ v
            · rw [stepR_ok_crit s n v t h100,
                runR_not_running _ rest rfl]
              simp [warnTimes]
            · have h := stepR_ok_alert s n v t
              rw [if_neg h100] at h
              by_cases h90 : 90 ≤ v
              · rw [if_pos h90] at h
                by_cases hg : 10 ≤ t - s.lastWarning2
                · rw [if_pos hg] at h
                  simp only [Prod.mk.injEq] at h
                  obtain ⟨ha, h1, h2, hrun⟩ := h
                  rw [ha]
                  have ihn := ih (stepR s (.ok n v) t).1
                  rw [h2] at ihn
                  simp only [List.map_cons, List.map_nil]
                  refine List.Chain.cons ?_ ?_
                  · unfold gapGE
                    omega
                  · simpa [warnTimes] using ihn
                · rw [if_neg hg] at h
                  simp only [Prod.mk.injEq] at h
                  obtain ⟨ha, h1, h2, hrun⟩ := h
                  rw [ha]
                  have ihn := ih (stepR s (.ok n v) t).1
                  rw [h2] at ihn
                  simpa [warnTimes] using ihn
              · rw [if_neg h90] at h
                by_cases h80 : 80 ≤ v
                · rw [if_pos h80] at h
                  by_cases hg : 60 ≤ t - s.lastWarning1
                  · rw [if_pos hg] at h
                    simp only [Prod.mk.injEq] at h
                    obtain ⟨ha, h1, h2, hrun⟩ := h
                    rw [ha]
                    have ihn := ih (stepR s (.ok n v) t).1
                    rw [h2] at ihn
                    simpa [warnTimes] using ihn
                  · rw [if_neg hg] at h
                    simp only [Prod.mk.injEq] at h
                    obtain ⟨ha, h1, h2, hrun⟩ := h
                    rw [ha]
                    have ihn := ih (stepR s (.ok n v) t).1
                    rw [h2] at ihn
                    simpa [warnTimes] using ihn
                · rw [if_neg h80] at h
                  simp only [Prod.mk.injEq] at h
                  obtain ⟨ha, h1, h2, hrun⟩ := h
                  rw [ha]
                  have ihn := ih (stepR s (.ok n v) t).1
                  rw [h2] at ihn
                  simpa [warnTimes] using ihn
      · have hrf : s.running = false := by simpa using hr
        rw [runR_not_running s _ hrf]
        exact List.Chain.nil

/-- Along any run, the announcement times of the 80° tier ascend by at
least 60 seconds, chained from the stored `lastWarning1` timestamp. -/
theorem caution_times_chain (evs : List (ParseResult × ℤ)) :
    ∀ s : MonState,
      List.Chain (gapGE 60) s.lastWarning1 (cautionTimes (runR s evs).2) := by
  induction evs with
  | nil =>
      intro s
      exact List.Chain.nil
  | cons e rest ih =>
      intro s
      obtain ⟨p, t⟩ := e
      by_cases hr : s.running = true
      · simp only [runR, hr, if_true]
        rw [cautionTimes_append]
        match p with
        | .empty | .wrongFieldCount | .indexError | .valueError
        | .sensorOutOfRange =>
            rw [stepR_err s _ t (by simp [ParseResult.isOk])]
            simpa [errActions, cautionTimes] using ih s
        | .ok n v =>
            by_cases h100 : 100 ≤ v
            · rw [stepR_ok_crit s n v t h100,
                runR_not_running _ rest rfl]
              simp [cautionTimes]
            · have h := stepR_ok_alert s n v t
              rw [if_neg h100] at h
              by_cases h90 : 90 ≤ v
              · rw [if_pos h90] at h
                by_cases hg : 10 ≤ t - s.lastWarning2
                · rw [if_pos hg] at h
                  simp only [Prod.mk.injEq] at h
                  obtain ⟨ha, h1, h2, hrun⟩ := h
                  rw [ha]
                  have ihn := ih (stepR s (.ok n v) t).1
                  rw [h1] at ihn
                  simpa [cautionTimes] using ihn
                · rw [if_neg hg] at h
                  simp only [Prod.mk.injEq] at h
                  obtain ⟨ha, h1, h2, hrun⟩ := h
                  rw [ha]
                  have ihn := ih (stepR s (.ok n v) t).1
                  rw [h1] at ihn
                  simpa [cautionTimes] using ihn
              · rw [if_neg h90] at h
                by_cases h80 : 80 ≤ v
                · rw [if_pos h80] at h
                  by_cases hg : 60 ≤ t - s.lastWarning1
                  · rw [if_pos hg] at h
                    simp only [Prod.mk.injEq] at h
                    obtain ⟨ha, h1, h2, hrun⟩ := h
                    rw [ha]
                    have ihn := ih (stepR s (.ok n v) t).1
                    rw [h1] at ihn
                    simp only [List.map_cons, List.map_nil]
                    refine List.Chain.cons ?_ ?_
                    · unfold gapGE
                      omega
                    · simpa [cautionTimes] using ihn
                  · rw [if_neg hg] at h
                    simp only [Prod.mk.injEq] at h
                    obtain ⟨ha, h1, h2, hrun⟩ := h
                    rw [ha]
                    have ihn := ih (stepR s (.ok n v) t).1
                    rw [h1] at ihn
                    simpa [cautionTimes] using ihn
                · rw [if_neg h80] at h
                  simp only [Prod.mk.injEq] at h
                  obtain ⟨ha, h1, h2, hrun⟩ := h
                  rw [ha]
                  have ihn := ih (stepR s (.ok n v) t).1
                  rw [h1] at ihn
                  simpa [cautionTimes] using ihn
      · have hrf : s.running = false := by simpa using hr
        rw [runR_not_running s _ hrf]
        exact List.Chain.nil

/-- **C4**: per-tier rate limiting.  Over any run, the times of any two
emitted `warn` actions are at least 10 s apart and the times of any two
emitted `caution` actions are at least 60 s apart (so at most one of each
fires within its interval); and a Warn-band reading is still fully
evaluated and recorded even when its announcement is suppressed — only the
emitted action is gated. -/
theorem rate_limited (s : MonState) (lines : List (String × ℤ))
    (s' : MonState) (n : Nat) (v : ℚ) (t : ℤ)
    (h90 : 90 ≤ v) (h100 : v < 100) :
    List.Pairwise (gapGE 10) (warnTimes (read_serial s lines).2) ∧
    List.Pairwise (gapGE 60) (cautionTimes (read_serial s lines).2) ∧
    (stepR s' (.ok n v) t).1.temp_history =
      s'.temp_history.set n
        (dequeAppend data_points (s'.temp_history.getD n []) v) := by
  refine ⟨?_, ?_, (stepR_ok_store s' n v t h100).2.1⟩
  · have hch := warn_times_chain (lines.map fun e => (decode e.1, e.2)) s
    rw [read_serial]
    exact (List.pairwise_cons.mp (List.chain_iff_pairwise.mp hch)).2
  · have hch := caution_times_chain (lines.map fun e => (decode e.1, e.2)) s
    rw [read_serial]
    exact (List.pairwise_cons.mp (List.chain_iff_pairwise.mp hch)).2

/-- Witness for C4: two Warn-band readings 5 s apart produce one `warn`. -/
theorem rate_limited_witness :
    List.Pairwise (gapGE 10)
      (warnTimes (read_serial initState
        [("Temp 0 : 92C", 0), ("Temp 0 : 93C", 5)]).2) ∧
    List.Pairwise (gapGE 60)
      (cautionTimes (read_serial initState
        [("Temp 0 : 92C", 0), ("Temp 0 : 93C", 5)]).2) ∧
    (stepR initState (.ok 0 92) 0).1.temp_history =
      initState.temp_history.set 0
        (dequeAppend data_points (initState.temp_history.getD 0 []) 92) :=
  rate_limited initState [("Temp 0 : 92C", 0), ("Temp 0 : 93C", 5)]
    initState 0 92 0 (by norm_num) (by norm_num)

/-! ### Ring buffers (C8) -/

theorem getD_set_ne (l : List α) (i j : Nat) (x d : α) (h : i ≠ j) :
    (l.set i x).getD j d = l.getD j d := by
  rw [List.getD_eq_getElem?_getD, List.getD_eq_getElem?_getD,
    List.getElem?_set, if_neg h]

theorem getD_set_self (l : List α) (i : Nat) (x d : α) :
    (l.set i x).getD i d = if i < l.length then x else l.getD i d := by
  rw [List.getD_eq_getElem?_getD, List.getElem?_set, if_pos rfl]
  split_ifs with h
  · rfl
  · rw [List.getD_eq_getElem?_getD, List.getElem?_eq_none (by omega)]

theorem dequeAppend_eq_append (cap : Nat) (xs : List α) (x : α)
    (h : xs.length < cap) : dequeAppend cap xs x = xs ++ [x] := by
  have hlen : ¬ cap < (xs ++ [x]).length := by
    simp only [List.length_append, List.length_singleton]
    omega
  simp only [dequeAppend, hlen, if_false]

theorem dequeAppend_length_le (cap : Nat) (xs : List α) (x : α)
    (h : xs.length ≤ cap) : (dequeAppend cap xs x).length ≤ cap := by
  simp only [dequeAppend]
  split_ifs with hlt
  · simp only [List.length_drop, List.length_append, List.length_singleton]
    omega
  · simp only [List.length_append, List.length_singleton]
    simp only [List.length_append, List.length_singleton] at hlt
    omega

/-- `dequeAppend` on the trailing-`cap` view of `A` is the trailing-`cap`
view of `A ++ [v]`. -/
theorem dequeAppend_drop (cap : Nat) (hcap : 0 < cap) (A : List α) (v : α) :
    dequeAppend cap (A.drop (A.length - cap)) v =
      (A ++ [v]).drop (A.length + 1 - cap) := by
  rcases Nat.lt_or_ge A.length cap with hlt | hge
  · rw [Nat.sub_eq_zero_of_le (Nat.le_of_lt hlt), List.drop_zero,
      Nat.sub_eq_zero_of_le hlt, List.drop_zero]
    exact dequeAppend_eq_append cap A v hlt
  · have hR : (A.drop (A.length - cap)).length = cap := by
      rw [List.length_drop]
      omega
    have hcond : cap < (A.drop (A.length - cap) ++ [v]).length := by
      rw [List.length_append, hR, List.length_singleton]
      omega
    simp only [dequeAppend, hcond, if_true]
    have e1 : (A.drop (A.length - cap) ++ [v]).length - cap = 1 := by
      rw [List.length_append, hR, List.length_singleton]
      omega
    rw [e1, List.drop_append_eq_append_drop, hR]
    have hv0 : 1 - cap = 0 := by omega
    rw [hv0, List.drop_zero, List.drop_drop, List.drop_append_eq_append_drop]
    have h2 : A.length - cap + 1 = A.length + 1 - cap := by omega
    have h3 : A.length + 1 - cap - A.length = 0 := by omega
    rw [h2, h3, List.drop_zero]

/-- Folding `dequeAppend` keeps exactly the trailing `cap` entries. -/
theorem foldl_dequeAppend (cap : Nat) (hcap : 0 < cap) (vs : List α) :
    ∀ xs : List α, xs.length ≤ cap →
      List.foldl (dequeAppend cap) xs vs =
        (xs ++ vs).drop (xs.length + vs.length - cap) := by
  induction vs using List.reverseRecOn with
  | nil =>
      intro xs h
      simp [Nat.sub_eq_zero_of_le h]
  | append_singleton vs v ih =>
      intro xs h
      rw [List.foldl_append, ih xs h]
      simp only [List.foldl_cons, List.foldl_nil]
      have hmain := dequeAppend_drop cap hcap (xs ++ vs) v
      rw [List.length_append] at hmain
      rw [hmain, ← List.append_assoc]
      congr 1
      rw [List.length_append, List.length_singleton]
      omega

/-- Both ring-buffer bounds, as an invariant of the monitor state. -/
def buffersBounded (s : MonState) : Prop :=
  (∀ i, (s.temp_history.getD i []).length ≤ data_points) ∧
  s.time_history.length ≤ data_points

theorem stepR_buffersBounded (s : MonState) (p : ParseResult) (now : ℤ)
    (h : buffersBounded s) : buffersBounded (stepR s p now).1 := by
  obtain ⟨h1, h2⟩ := h
  match p with
  | .empty | .wrongFieldCount | .indexError | .valueError
  | .sensorOutOfRange =>
      rw [stepR_err s _ now (by simp [ParseResult.isOk])]
      exact ⟨h1, h2⟩
  | .ok n v =>
      by_cases h100 : 100 ≤ v
      · rw [stepR_ok_crit s n v now h100]
        exact ⟨h1, h2⟩
      · obtain ⟨ht, hh, htime, hrc, hrun⟩ :=
          stepR_ok_store s n v now (not_le.mp h100)
        constructor
        · intro i
          rw [hh]
          by_cases hi : n = i
          · subst hi
            rw [getD_set_self]
            split_ifs
            · exact dequeAppend_length_le _ _ _ (h1 n)
            · exact h1 n
          · rw [getD_set_ne _ _ _ _ _ hi]
            exact h1 i
        · rw [htime]
          split_ifs
          · exact dequeAppend_length_le _ _ _ h2
          · exact h2

theorem runR_buffersBounded (evs : List (ParseResult × ℤ)) :
    ∀ s : MonState, buffersBounded s → buffersBounded (runR s evs).1 := by
  induction evs with
  | nil => intro s h; exact h
  | cons e rest ih =>
      intro s h
      obtain ⟨p, t⟩ := e
      by_cases hr : s.running = true
      · simp only [runR, hr, if_true]
        exact ih _ (stepR_buffersBounded s p t h)
      · have hrf : s.running = false := by simpa using hr
        rw [runR_not_running s _ hrf]
        exact h

theorem initState_buffersBounded : buffersBounded initState := by
  constructor
  · intro i
    have hinit : initState.temp_history.getD i [] = ([] : List ℚ) := by
      simp only [initState, List.getD_eq_getElem?_getD,
        List.getElem?_replicate]
      split_ifs <;> rfl
    rw [hinit]
    exact Nat.zero_le _
  · exact Nat.zero_le _

/-- **C8**: the per-sensor history buffers and the shared timestamp buffer
never exceed the configured capacity `data_points`, and a ring buffer that
has absorbed `cap + k` values holds exactly the last `cap` of them in
arrival order (FIFO eviction). -/
theorem bounded_history (lines : List (String × ℤ)) (cap : Nat)
    (vs : List ℚ) (k : Nat) :
    (∀ i, ((read_serial initState lines).1.temp_history.getD i []).length
        ≤ data_points) ∧
    (read_serial initState lines).1.time_history.length ≤ data_points ∧
    (0 < cap → vs.length = cap + k →
      List.foldl (dequeAppend cap) [] vs = vs.drop k) := by
  refine ⟨?_, ?_, ?_⟩
  · exact (runR_buffersBounded _ initState initState_buffersBounded).1
  · exact (runR_buffersBounded _ initState initState_buffersBounded).2
  · intro hcap hlen
    rw [foldl_dequeAppend cap hcap vs [] (by simp)]
    simp [hlen]

/-- Witness for C8: a capacity-2 buffer fed 3 values keeps the last 2. -/
theorem bounded_history_witness :
    (∀ i, ((read_serial initState
        [("Temp 0 : 50C", 0)]).1.temp_history.getD i []).length
        ≤ data_points) ∧
    (read_serial initState
        [("Temp 0 : 50C", 0)]).1.time_history.length ≤ data_points ∧
    List.foldl (dequeAppend 2) [] ([1, 2, 3] : List ℚ) =
      ([1, 2, 3] : List ℚ).drop 1 :=
  ⟨(bounded_history [("Temp 0 : 50C", 0)] 2 [1, 2, 3] 1).1,
   (bounded_history [("Temp 0 : 50C", 0)] 2 [1, 2, 3] 1).2.1,
   (bounded_history [("Temp 0 : 50C", 0)] 2 [1, 2, 3] 1).2.2 (by norm_num)
     (by decide)⟩

/-! ### Full sampling cycles and the store round trip (C7) -/

/-- View a list of accepted readings `(sensor, value, time)` as run events. -/
def okEvents (es : List (Nat × ℚ × ℤ)) : List (ParseResult × ℤ) :=
  es.map (fun e => (.ok e.1 e.2.1, e.2.2))

/-- The values destined for sensor `i`, in arrival order. -/
def sensorValues (i : Nat) (es : List (Nat × ℚ × ℤ)) : List ℚ :=
  (es.filter (fun e => e.1 = i)).map (fun e => e.2.1)

/-- The times of readings for the cycle-closing sensor, in arrival order. -/
def cycleStamps (es : List (Nat × ℚ × ℤ)) : List ℤ :=
  (es.filter (fun e => e.1 = numberOfThermistors - 1)).map (fun e => e.2.2)

theorem okEvents_cons (n : Nat) (v : ℚ) (t : ℤ) (es : List (Nat × ℚ × ℤ)) :
    okEvents ((n, v, t) :: es) = (ParseResult.ok n v, t) :: okEvents es :=
  rfl

theorem sensorValues_cons (i n : Nat) (v : ℚ) (t : ℤ)
    (es : List (Nat × ℚ × ℤ)) :
    sensorValues i ((n, v, t) :: es) =
      if n = i then v :: sensorValues i es else sensorValues i es := by
  by_cases h : n = i <;> simp [sensorValues, List.filter_cons, h]

theorem cycleStamps_cons (n : Nat) (v : ℚ) (t : ℤ)
    (es : List (Nat × ℚ × ℤ)) :
    cycleStamps ((n, v, t) :: es) =
      if n = numberOfThermistors - 1 then t :: cycleStamps es
      else cycleStamps es := by
  by_cases h : n = numberOfThermistors - 1 <;>
    simp [cycleStamps, List.filter_cons, h]

theorem sensorValues_append (i : Nat) (a b : List (Nat × ℚ × ℤ)) :
    sensorValues i (a ++ b) = sensorValues i a ++ sensorValues i b := by
  simp [sensorValues, List.filter_append]

theorem cycleStamps_append (a b : List (Nat × ℚ × ℤ)) :
    cycleStamps (a ++ b) = cycleStamps a ++ cycleStamps b := by
  simp [cycleStamps, List.filter_append]

theorem sensorValues_eq_nil (i : Nat) (es : List (Nat × ℚ × ℤ))
    (h : ∀ e ∈ es, e.1 ≠ i) : sensorValues i es = [] := by
  rw [sensorValues, List.filter_eq_nil_iff.mpr (by simpa using h),
    List.map_nil]

/-- Store correctness on a run of accepted, non-critical readings: each
sensor's history grows by exactly its own values in order, the shared
timestamp buffer grows by one stamp per reading of the cycle-closing
sensor, and `readings_count` counts the completed cycles. -/
theorem runR_ok_store (es : List (Nat × ℚ × ℤ)) :
    ∀ s : MonState, s.running = true →
      (∀ e ∈ es, e.2.1 < 100) →
      (∀ e ∈ es, e.1 < s.temp_history.length) →
      (∀ i, (s.temp_history.getD i []).length + (sensorValues i es).length
        ≤ data_points) →
      s.time_history.length + (cycleStamps es).length ≤ data_points →
      (∀ i, (runR s (okEvents es)).1.temp_history.getD i [] =
        s.temp_history.getD i [] ++ sensorValues i es) ∧
      (runR s (okEvents es)).1.time_history =
        s.time_history ++ cycleStamps es ∧
      (runR s (okEvents es)).1.readings_count =
        s.readings_count + (cycleStamps es).length ∧
      (runR s (okEvents es)).1.temp_history.length =
        s.temp_history.length ∧
      (runR s (okEvents es)).1.running = true := by
  induction es with
  | nil =>
      intro s hs _ _ _ _
      exact ⟨fun i => by simp [okEvents, runR, sensorValues],
        by simp [okEvents, runR, cycleStamps],
        by simp [okEvents, runR, cycleStamps], rfl, hs⟩
  | cons e rest ih =>
      intro s hs hval hlen hroom htroom
      obtain ⟨n, v, t⟩ := e
      have hv : v < 100 := hval (n, v, t) (List.mem_cons_self _ _)
      have hn : n < s.temp_history.length :=
        hlen (n, v, t) (List.mem_cons_self _ _)
      obtain ⟨ht, hh, htime, hrc, hrun⟩ := stepR_ok_store s n v t hv
      have hgetn : (s.temp_history.getD n []).length < data_points := by
        have hr := hroom n
        rw [sensorValues_cons, if_pos rfl] at hr
        simp only [List.length_cons] at hr
        omega
      rw [dequeAppend_eq_append _ _ _ hgetn] at hh
      have hs1run : (stepR s (.ok n v) t).1.running = true := by
        rw [hrun, hs]
      have hs1len : (stepR s (.ok n v) t).1.temp_history.length
          = s.temp_history.length := by
        rw [hh, List.length_set]
      have hs1time : (stepR s (.ok n v) t).1.time_history =
          (if n = numberOfThermistors - 1 then s.time_history ++ [t]
           else s.time_history) := by
        rw [htime]
        split_ifs with h7
        · have hlt : s.time_history.length < data_points := by
            have hr := htroom
            rw [cycleStamps_cons, if_pos h7] at hr
            simp only [List.length_cons] at hr
            omega
          exact dequeAppend_eq_append _ _ _ hlt
        · rfl
      have hgetD1 : ∀ i, (stepR s (.ok n v) t).1.temp_history.getD i [] =
          (if n = i then s.temp_history.getD i [] ++ [v]
           else s.temp_history.getD i []) := by
        intro i
        rw [hh]
        by_cases hi : n = i
        · subst hi
          rw [if_pos rfl, getD_set_self, if_pos hn]
        · rw [if_neg hi, getD_set_ne _ _ _ _ _ hi]
      obtain ⟨ih1, ih2, ih3, ih4, ih5⟩ := ih (stepR s (.ok n v) t).1 hs1run
        (fun e he => hval e (List.mem_cons_of_mem _ he))
        (fun e he => by
          rw [hs1len]
          exact hlen e (List.mem_cons_of_mem _ he))
        (fun i => by
          rw [hgetD1 i]
          by_cases hi : n = i
          · rw [if_pos hi]
            have hr := hroom i
            rw [sensorValues_cons, if_pos hi] at hr
            simp only [List.length_cons, List.length_append,
              List.length_singleton, List.length_nil] at hr ⊢
            omega
          · rw [if_neg hi]
            have hr := hroom i
            rw [sensorValues_cons, if_neg hi] at hr
            exact hr)
        (by
          rw [hs1time]
          by_cases h7 : n = numberOfThermistors - 1
          · rw [if_pos h7]
            have hr := htroom
            rw [cycleStamps_cons, if_pos h7] at hr
            simp only [List.length_cons, List.length_append,
              List.length_singleton, List.length_nil] at hr ⊢
            omega
          · rw [if_neg h7]
            have hr := htroom
            rw [cycleStamps_cons, if_neg h7] at hr
            exact hr)
      rw [okEvents_cons]
      simp only [runR, hs, if_true]
      refine ⟨?_, ?_, ?_, ?_, ih5⟩
      · intro i
        rw [ih1 i, hgetD1 i, sensorValues_cons]
        by_cases hi : n = i
        · rw [if_pos hi, if_pos hi, List.append_assoc,
            List.singleton_append]
        · rw [if_neg hi, if_neg hi]
      · rw [ih2, hs1time, cycleStamps_cons]
        by_cases h7 : n = numberOfThermistors - 1
        · rw [if_pos h7, if_pos h7, List.append_assoc,
            List.singleton_append]
        · rw [if_neg h7, if_neg h7]
      · rw [ih3, hrc, cycleStamps_cons]
        by_cases h7 : n = numberOfThermistors - 1
        · rw [if_pos h7, if_pos h7]
          simp only [List.length_cons]
          omega
        · rw [if_neg h7, if_neg h7]
      · rw [ih4, hs1len]

theorem getD_mem_or_default (l : List α) (j : Nat) (d : α) :
    l.getD j d ∈ l ∨ l.getD j d = d := by
  rcases Nat.lt_or_ge j l.length with h | h
  · left
    rw [List.getD_eq_getElem?_getD, List.getElem?_eq_getElem h]
    exact List.getElem_mem _
  · right
    rw [List.getD_eq_getElem?_getD, List.getElem?_eq_none (by omega)]
    rfl

/-- One row of values per cycle, with the cycle's timestamp: the events of
`N` sequential complete sampling cycles, sensors `0..N-1` in order. -/
def cycleEvents (rows : List (List ℚ × ℤ)) : List (Nat × ℚ × ℤ) :=
  rows.flatMap
    (fun r => (List.range numberOfThermistors).map
      (fun j => (j, r.1.getD j 0, r.2)))

theorem cycleEvents_cons (r : List ℚ × ℤ) (rows : List (List ℚ × ℤ)) :
    cycleEvents (r :: rows) =
      (List.range numberOfThermistors).map
        (fun j => (j, r.1.getD j 0, r.2)) ++ cycleEvents rows := by
  simp [cycleEvents]

theorem mem_cycleEvents (rows : List (List ℚ × ℤ)) (e : Nat × ℚ × ℤ)
    (he : e ∈ cycleEvents rows) :
    e.1 < numberOfThermistors ∧
      ∃ r ∈ rows, e.2.1 = r.1.getD e.1 0 ∧ e.2.2 = r.2 := by
  simp only [cycleEvents, List.mem_flatMap, List.mem_map,
    List.mem_range] at he
  obtain ⟨r, hr, j, hj, rfl⟩ := he
  exact ⟨hj, r, hr, rfl, rfl⟩

theorem sensorValues_cycle (i : Nat) (hi : i < numberOfThermistors)
    (r : List ℚ) (t : ℤ) :
    sensorValues i ((List.range numberOfThermistors).map
      (fun j => (j, r.getD j 0, t))) = [r.getD i 0] := by
  have h8 : i < 8 := hi
  interval_cases i <;>
    simp [sensorValues, numberOfThermistors, List.range_succ]

theorem cycleStamps_cycle (r : List ℚ) (t : ℤ) :
    cycleStamps ((List.range numberOfThermistors).map
      (fun j => (j, r.getD j 0, t))) = [t] := by
  simp [cycleStamps, numberOfThermistors, List.range_succ]

theorem sensorValues_cycleEvents (i : Nat) (hi : i < numberOfThermistors)
    (rows : List (List ℚ × ℤ)) :
    sensorValues i (cycleEvents rows) =
      rows.map (fun r => r.1.getD i 0) := by
  induction rows with
  | nil => rfl
  | cons r rest ih =>
      rw [cycleEvents_cons, sensorValues_append,
        sensorValues_cycle i hi r.1 r.2, ih, List.map_cons,
        List.singleton_append]

theorem cycleStamps_cycleEvents (rows : List (List ℚ × ℤ)) :
    cycleStamps (cycleEvents rows) = rows.map Prod.snd := by
  induction rows with
  | nil => rfl
  | cons r rest ih =>
      rw [cycleEvents_cons, cycleStamps_append,
        cycleStamps_cycle r.1 r.2, ih, List.map_cons,
        List.singleton_append]

theorem sensorValues_cycleEvents_out (i : Nat)
    (hi : numberOfThermistors ≤ i) (rows : List (List ℚ × ℤ)) :
    sensorValues i (cycleEvents rows) = [] :=
  sensorValues_eq_nil i _ (fun e he => by
    have h := (mem_cycleEvents rows e he).1
    omega)

theorem initState_getD (i : Nat) :
    initState.temp_history.getD i [] = ([] : List ℚ) := by
  simp only [initState, List.getD_eq_getElem?_getD,
    List.getElem?_replicate]
  split_ifs <;> rfl

/-- **C7**: the shared timestamp buffer advances exactly at full-cycle
boundaries — for an accepted reading a timestamp is appended iff its sensor
is the configured last-of-cycle index — and after `N` sequential complete
cycles from startup the store holds exactly the `N` cycle timestamps and,
per sensor, the `N` values in arrival order. -/
theorem cycle_timestamps (s : MonState) (n : Nat) (v : ℚ) (t : ℤ)
    (rows : List (List ℚ × ℤ)) :
    (v < 100 →
      (stepR s (.ok n v) t).1.time_history =
        (if n = numberOfThermistors - 1 then
          dequeAppend data_points s.time_history t
        else s.time_history)) ∧
    ((∀ r ∈ rows, ∀ w ∈ r.1, w < 100) → rows.length ≤ data_points →
      (runR initState (okEvents (cycleEvents rows))).1.time_history =
        rows.map Prod.snd ∧
      (∀ i, i < numberOfThermistors →
        (runR initState (okEvents (cycleEvents rows))).1.temp_history.getD
          i [] = rows.map (fun r => r.1.getD i 0)) ∧
      (runR initState (okEvents (cycleEvents rows))).1.readings_count =
        rows.length) := by
  constructor
  · intro hv
    exact (stepR_ok_store s n v t hv).2.2.1
  · intro hval hlen
    have hvals : ∀ e ∈ cycleEvents rows, e.2.1 < 100 := by
      intro e he
      obtain ⟨h1, r, hr, he1, he2⟩ := mem_cycleEvents rows e he
      rw [he1]
      rcases getD_mem_or_default r.1 e.1 0 with hmem | hdef
      · exact hval r hr _ hmem
      · rw [hdef]
        norm_num
    have hsens : ∀ e ∈ cycleEvents rows,
        e.1 < initState.temp_history.length := by
      intro e he
      have h8 : initState.temp_history.length = numberOfThermistors := by
        simp [initState]
      rw [h8]
      exact (mem_cycleEvents rows e he).1
    have hroom : ∀ i, (initState.temp_history.getD i []).length +
        (sensorValues i (cycleEvents rows)).length ≤ data_points := by
      intro i
      rw [initState_getD]
      rcases Nat.lt_or_ge i numberOfThermistors with hi | hi
      · rw [sensorValues_cycleEvents i hi]
        simpa using hlen
      · rw [sensorValues_cycleEvents_out i hi]
        simp
    have htroom : initState.time_history.length +
        (cycleStamps (cycleEvents rows)).length ≤ data_points := by
      rw [cycleStamps_cycleEvents]
      simpa [initState] using hlen
    obtain ⟨c1, c2, c3, c4, c5⟩ := runR_ok_store (cycleEvents rows)
      initState rfl hvals hsens hroom htroom
    refine ⟨?_, ?_, ?_⟩
    · rw [c2, cycleStamps_cycleEvents]
      simp [initState]
    · intro i hi
      rw [c1 i, initState_getD, sensorValues_cycleEvents i hi,
        List.nil_append]
    · rw [c3, cycleStamps_cycleEvents]
      simp [initState]

/-- Witness for C7: one complete cycle of eight readings records one
timestamp and one value per sensor; a non-closing reading records none. -/
theorem cycle_timestamps_witness :
    (runR initState (okEvents (cycleEvents
      [([1, 2, 3, 4, 5, 6, 7, 8], 5)]))).1.time_history = [(5 : ℤ)] ∧
    (runR initState (okEvents (cycleEvents
      [([1, 2, 3, 4, 5, 6, 7, 8], 5)]))).1.temp_history.getD 2 [] =
      [(3 : ℚ)] ∧
    (runR initState (okEvents (cycleEvents
      [([1, 2, 3, 4, 5, 6, 7, 8], 5)]))).1.readings_count = 1 ∧
    (stepR initState (.ok 0 50) 3).1.time_history =
      initState.time_history := by
  obtain ⟨h1, h2⟩ := cycle_timestamps initState 0 50 3
    [([1, 2, 3, 4, 5, 6, 7, 8], 5)]
  obtain ⟨t1, t2, t3⟩ := h2 (by decide) (by decide)
  refine ⟨?_, ?_, ?_, ?_⟩
  · simpa using t1
  · have ht := t2 2 (by decide)
    rw [ht]
    decide
  · simpa using t3
  · have hstep := h1 (by norm_num)
    simpa [numberOfThermistors] using hstep

/-! ### Liveness watchdog (C3) -/

/-- Modelled from the spec: the Liveness Watchdog of §4.3 is declared as a
feature in the module docstring but is absent from `src/5090TempWatch.py`;
this state record follows the spec's words.  `armed = false` means the
stale alert has already fired for the current silence episode and must not
re-fire until a valid reading re-arms it. -/
structure WDState where
  lastValid : ℤ
  armed : Bool
deriving DecidableEq

/-- Modelled from the spec: one event seen by the watchdog — a periodic
check at time `t`, or a successfully decoded, in-range reading at `t`. -/
inductive WDEvent where
  | check (t : ℤ)
  | valid (t : ℤ)
deriving DecidableEq

/-- Modelled from the spec: a periodic check fires the single stale alert
when the link has been silent longer than `staleThreshold` while armed
(Armed→Tripped); a successfully decoded reading updates `lastValid` and
re-arms (Tripped→Armed). -/
def wdStep (staleThreshold : ℤ) (s : WDState) : WDEvent → WDState × Bool
  | .check t =>
      if s.armed = true ∧ staleThreshold < t - s.lastValid then
        ({ s with armed := false }, true)
      else (s, false)
  | .valid t => ({ lastValid := t, armed := true }, false)

/-- Modelled from the spec: run the watchdog over an event sequence,
counting the fired stale alerts. -/
def wdRun (staleThreshold : ℤ) (s : WDState) :
    List WDEvent → WDState × Nat
  | [] => (s, 0)
  | e :: rest =>
      let r := wdStep staleThreshold s e
      let r2 := wdRun staleThreshold r.1 rest
      (r2.1, (if r.2 then 1 else 0) + r2.2)

theorem wdStep_check_pos (th : ℤ) (s : WDState) (t : ℤ)
    (h : s.armed = true ∧ th < t - s.lastValid) :
    wdStep th s (.check t) = ({ s with armed := false }, true) := by
  simp only [wdStep]
  rw [if_pos h]

theorem wdStep_check_neg (th : ℤ) (s : WDState) (t : ℤ)
    (h : ¬ (s.armed = true ∧ th < t - s.lastValid)) :
    wdStep th s (.check t) = (s, false) := by
  simp only [wdStep]
  rw [if_neg h]

theorem wdRun_disarmed (th : ℤ) (cs : List ℤ) :
    ∀ s : WDState, s.armed = false →
      wdRun th s (cs.map WDEvent.check) = (s, 0) := by
  induction cs with
  | nil => intro s _; rfl
  | cons c rest ih =>
      intro s hs
      have hcond : ¬ (s.armed = true ∧ th < c - s.lastValid) := by
        rw [hs]
        simp
      simp only [List.map_cons, wdRun]
      rw [wdStep_check_neg th s c hcond]
      simp [ih s hs]

theorem wdRun_append (th : ℤ) (l1 : List WDEvent) :
    ∀ (s : WDState) (l2 : List WDEvent),
      wdRun th s (l1 ++ l2) =
        ((wdRun th (wdRun th s l1).1 l2).1,
         (wdRun th s l1).2 + (wdRun th (wdRun th s l1).1 l2).2) := by
  induction l1 with
  | nil => intro s l2; simp [wdRun]
  | cons e rest ih =>
      intro s l2
      simp only [List.cons_append, wdRun, List.append_eq]
      rw [ih]
      simp [Nat.add_assoc]

/-- Modelled from the spec: an armed watchdog that sees some check beyond
the stale threshold fires exactly once over a run of checks. -/
theorem wdRun_checks_once (th : ℤ) (cs : List ℤ) :
    ∀ s : WDState, s.armed = true →
      (∃ u ∈ cs, th < u - s.lastValid) →
      (wdRun th s (cs.map WDEvent.check)).2 = 1 := by
  induction cs with
  | nil =>
      intro s _ hex
      obtain ⟨u, hu, _⟩ := hex
      exact absurd hu (List.not_mem_nil u)
  | cons c rest ih =>
      intro s hs hex
      by_cases hfire : s.armed = true ∧ th < c - s.lastValid
      · simp only [List.map_cons, wdRun]
        rw [wdStep_check_pos th s c hfire]
        simp [wdRun_disarmed th rest { s with armed := false } rfl]
      · simp only [List.map_cons, wdRun]
        have hex' : ∃ u ∈ rest, th < u - s.lastValid := by
          obtain ⟨u, hu, hgap⟩ := hex
          rcases List.mem_cons.mp hu with rfl | hmem
          · exact absurd ⟨hs, hgap⟩ hfire
          · exact ⟨u, hmem, hgap⟩
        rw [wdStep_check_neg th s c hfire]
        simp [ih s hs hex']

/-- **C3**: watchdog liveness (spec-modelled; the watchdog is absent from
the source).  From an armed state, a silence episode of checks containing a
gap beyond the stale threshold fires exactly one stale alert; a valid
reading re-arms the watchdog, so a second such episode fires exactly once
again — two episodes separated by one valid reading fire exactly twice. -/
theorem watchdog_stale_once (th : ℤ) (s : WDState) (cs1 cs2 : List ℤ)
    (t : ℤ) (hs : s.armed = true)
    (h1 : ∃ u ∈ cs1, th < u - s.lastValid)
    (h2 : ∃ u ∈ cs2, th < u - t) :
    (wdRun th s (cs1.map WDEvent.check)).2 = 1 ∧
    (wdRun th ⟨t, true⟩ (cs2.map WDEvent.check)).2 = 1 ∧
    (wdRun th s (cs1.map WDEvent.check ++
      WDEvent.valid t :: cs2.map WDEvent.check)).2 = 2 := by
  have hc1 := wdRun_checks_once th cs1 s hs h1
  have hc2 := wdRun_checks_once th cs2 ⟨t, true⟩ rfl h2
  refine ⟨hc1, hc2, ?_⟩
  have hmid : (wdRun th (wdRun th s (cs1.map WDEvent.check)).1
      (WDEvent.valid t :: cs2.map WDEvent.check)).2 =
      (wdRun th ⟨t, true⟩ (cs2.map WDEvent.check)).2 := by
    simp [wdRun, wdStep]
  rw [wdRun_append]
  show (wdRun th s (cs1.map WDEvent.check)).2 +
      (wdRun th (wdRun th s (cs1.map WDEvent.check)).1
        (WDEvent.valid t :: cs2.map WDEvent.check)).2 = 2
  rw [hc1, hmid, hc2]

/-- Witness for C3: threshold 1, checks at 5 (gap 5 from 0), valid reading
at 6, then a check at 20 (gap 14): one stale alert per episode, two total. -/
theorem watchdog_stale_once_witness :
    (wdRun 1 ⟨0, true⟩ ([5].map WDEvent.check)).2 = 1 ∧
    (wdRun 1 ⟨6, true⟩ ([20].map WDEvent.check)).2 = 1 ∧
    (wdRun 1 ⟨0, true⟩ ([5].map WDEvent.check ++
      WDEvent.valid 6 :: [20].map WDEvent.check)).2 = 2 :=
  watchdog_stale_once 1 ⟨0, true⟩ [5] [20] 6 rfl
    ⟨5, by simp, by norm_num⟩ ⟨20, by simp, by norm_num⟩

/-! ### Decode correctness for the configured grammar (C9) -/

theorem isDigit_facts (c : Char) (h : c.isDigit = true) :
    c.isWhitespace = false ∧ c ≠ ':' ∧ c ≠ 'C' ∧ c ≠ '-' ∧ c ≠ '+' ∧
      c ≠ '.' := by
  refine ⟨?_, ?_, ?_, ?_, ?_, ?_⟩
  · by_contra hws
    rw [Bool.not_eq_false] at hws
    simp only [Char.isWhitespace, Bool.or_eq_true, decide_eq_true_eq]
      at hws
    rcases hws with ((h1 | h1) | h1) | h1 <;> subst h1 <;>
      exact absurd h (by decide)
  · intro h1; subst h1; exact absurd h (by decide)
  · intro h1; subst h1; exact absurd h (by decide)
  · intro h1; subst h1; exact absurd h (by decide)
  · intro h1; subst h1; exact absurd h (by decide)
  · intro h1; subst h1; exact absurd h (by decide)

theorem splitOnAux_no_sep (c : Char) (A : List Char) (h : c ∉ A) :
    ∀ acc, splitOnAux c A acc = [acc.reverse ++ A] := by
  induction A with
  | nil => intro acc; simp [splitOnAux]
  | cons x xs ih =>
      intro acc
      rw [List.mem_cons, not_or] at h
      have hx : ¬ (x = c) := fun hEq => h.1 hEq.symm
      simp only [splitOnAux]
      rw [if_neg hx, ih h.2 (x :: acc)]
      simp

theorem splitOnAux_sep (c : Char) (A B : List Char) (h : c ∉ A) :
    ∀ acc, splitOnAux c (A ++ c :: B) acc =
      (acc.reverse ++ A) :: splitOnChar c B := by
  induction A with
  | nil =>
      intro acc
      simp [splitOnAux, splitOnChar]
  | cons x xs ih =>
      intro acc
      rw [List.mem_cons, not_or] at h
      have hx : ¬ (x = c) := fun hEq => h.1 hEq.symm
      rw [List.cons_append]
      simp only [splitOnAux]
      rw [if_neg hx, ih h.2 (x :: acc)]
      simp

theorem splitOnChar_pair (c : Char) (A B : List Char) (hA : c ∉ A)
    (hB : c ∉ B) : splitOnChar c (A ++ c :: B) = [A, B] := by
  rw [splitOnChar, splitOnAux_sep c A B hA [], splitOnChar,
    splitOnAux_no_sep c B hB []]
  simp

theorem splitWSAux_no_ws (A : List Char)
    (h : ∀ x ∈ A, x.isWhitespace = false) :
    ∀ acc, splitWSAux A acc = [acc.reverse ++ A] := by
  induction A with
  | nil => intro acc; simp [splitWSAux]
  | cons x xs ih =>
      intro acc
      have hx := h x (List.mem_cons_self _ _)
      simp only [splitWSAux, hx, Bool.false_eq_true, if_false]
      rw [ih (fun y hy => h y (List.mem_cons_of_mem _ hy)) (x :: acc)]
      simp

theorem splitWSAux_sep (A rest : List Char) (w : Char)
    (hw : w.isWhitespace = true)
    (h : ∀ x ∈ A, x.isWhitespace = false) :
    ∀ acc, splitWSAux (A ++ w :: rest) acc =
      (acc.reverse ++ A) :: splitWSAux rest [] := by
  induction A with
  | nil =>
      intro acc
      simp [splitWSAux, hw]
  | cons x xs ih =>
      intro acc
      have hx := h x (List.mem_cons_self _ _)
      rw [List.cons_append]
      simp only [splitWSAux, hx, Bool.false_eq_true, if_false]
      rw [ih (fun y hy => h y (List.mem_cons_of_mem _ hy)) (x :: acc)]
      simp

theorem pysplit_two (A B : List Char) (hA0 : A ≠ [])
    (hA : ∀ x ∈ A, x.isWhitespace = false) (hB0 : B ≠ [])
    (hB : ∀ x ∈ B, x.isWhitespace = false) :
    pysplit (A ++ ' ' :: (B ++ [' '])) = [A, B] := by
  rw [pysplit, splitWSAux_sep A (B ++ [' ']) ' ' (by decide) hA [],
    splitWSAux_sep B [] ' ' (by decide) hB []]
  simp [splitWSAux, hA0, hB0]

theorem dropWhile_eq_self_of (p : Char → Bool) (l : List Char)
    (h : ∀ x ∈ l, p x = false) : l.dropWhile p = l := by
  cases l with
  | nil => rfl
  | cons x xs =>
      rw [List.dropWhile_cons, h x (List.mem_cons_self _ _)]
      simp

theorem pytrim_of_all (l : List Char)
    (h : ∀ x ∈ l, x.isWhitespace = false) : pytrim l = l := by
  rw [pytrim, dropWhile_eq_self_of _ l h,
    dropWhile_eq_self_of _ l.reverse
      (fun x hx => h x (List.mem_reverse.mp hx)),
    List.reverse_reverse]

theorem pytrim_cons_ws (w : Char) (hw : w.isWhitespace = true)
    (l : List Char) : pytrim (w :: l) = pytrim l := by
  rw [pytrim, pytrim, List.dropWhile_cons, hw]
  simp

theorem pytrim_sandwich (c : Char) (m : List Char) (d : Char)
    (hc : c.isWhitespace = false) (hd : d.isWhitespace = false) :
    pytrim ((c :: m) ++ [d]) = (c :: m) ++ [d] := by
  rw [pytrim, List.cons_append, List.dropWhile_cons, hc]
  simp only [Bool.false_eq_true, if_false]
  rw [← List.cons_append, List.reverse_append, List.reverse_singleton,
    List.singleton_append, List.dropWhile_cons, hd]
  simp

theorem parseDigits_of (ds : List Char) (h0 : ds ≠ [])
    (hd : ∀ c ∈ ds, c.isDigit = true) :
    parseDigits ds = some (natOfDigits ds) := by
  rw [parseDigits, if_pos ⟨h0, List.all_eq_true.mpr hd⟩]

theorem parseInt_digits (ds : List Char) (h0 : ds ≠ [])
    (hd : ∀ c ∈ ds, c.isDigit = true) :
    parseInt ds = some ((natOfDigits ds : ℤ)) := by
  cases ds with
  | nil => exact absurd rfl h0
  | cons d rest =>
      obtain ⟨_, _, _, hm, hp, _⟩ :=
        isDigit_facts d (hd d (List.mem_cons_self _ _))
      simp only [parseInt]
      rw [if_neg hm, if_neg hp, parseDigits_of _ h0 hd, Option.map_some']

theorem parseUnsignedRat_int (ip : List Char) (h0 : ip ≠ [])
    (hd : ∀ c ∈ ip, c.isDigit = true) :
    parseUnsignedRat ip = some ((natOfDigits ip : ℚ)) := by
  have hnd : '.' ∉ ip := fun hm =>
    (isDigit_facts '.' (hd '.' hm)).2.2.2.2.2 rfl
  have hsp : splitOnChar '.' ip = [ip] := by
    have hh := splitOnAux_no_sep '.' ip hnd []
    simpa [splitOnChar] using hh
  unfold parseUnsignedRat
  rw [hsp]
  show (parseDigits ip).map (fun n : Nat => (n : ℚ)) =
    some ((natOfDigits ip : ℚ))
  rw [parseDigits_of _ h0 hd, Option.map_some']

theorem parseUnsignedRat_frac (ip fp : List Char)
    (h0 : ip ≠ [] ∨ fp ≠ [])
    (hipd : ∀ c ∈ ip, c.isDigit = true)
    (hfpd : ∀ c ∈ fp, c.isDigit = true) :
    parseUnsignedRat (ip ++ '.' :: fp) =
      some ((natOfDigits ip : ℚ) +
        (natOfDigits fp : ℚ) / (10 : ℚ) ^ fp.length) := by
  have hip : '.' ∉ ip := fun hm =>
    (isDigit_facts '.' (hipd '.' hm)).2.2.2.2.2 rfl
  have hfp : '.' ∉ fp := fun hm =>
    (isDigit_facts '.' (hfpd '.' hm)).2.2.2.2.2 rfl
  have hsp : splitOnChar '.' (ip ++ '.' :: fp) = [ip, fp] :=
    splitOnChar_pair '.' ip fp hip hfp
  unfold parseUnsignedRat
  rw [hsp]
  show (if (ip ≠ [] ∨ fp ≠ []) ∧ ip.all Char.isDigit = true ∧
      fp.all Char.isDigit = true then
    some ((natOfDigits ip : ℚ) +
      (natOfDigits fp : ℚ) / (10 : ℚ) ^ fp.length)
  else none) = some ((natOfDigits ip : ℚ) +
    (natOfDigits fp : ℚ) / (10 : ℚ) ^ fp.length)
  rw [if_pos ⟨h0, List.all_eq_true.mpr hipd, List.all_eq_true.mpr hfpd⟩]

theorem parseRat_digit_head (d : Char) (rest : List Char)
    (hd : d.isDigit = true) :
    parseRat (d :: rest) = parseUnsignedRat (d :: rest) := by
  obtain ⟨_, _, _, hm, hp, _⟩ := isDigit_facts d hd
  simp only [parseRat]
  rw [if_neg hm, if_neg hp]

/-- Core of C9: a well-formed Variant-B line — one whitespace-free,
colon-free tag token, a digit index, a colon, and a numeric value string
followed by the `C` unit — decodes to the encoded sensor and the value
parsed from the value string, with the unit stripped before parsing. -/
theorem decodeL_variant_b (tag idig vstr : List Char) (v : ℚ)
    (htag0 : tag ≠ [])
    (htag : ∀ c ∈ tag, c.isWhitespace = false ∧ c ≠ ':')
    (hidig0 : idig ≠ [])
    (hidig : ∀ c ∈ idig, c.isDigit = true)
    (hvch : ∀ c ∈ vstr, c.isWhitespace = false ∧ c ≠ ':' ∧ c ≠ 'C')
    (hparse : parseRat vstr = some v)
    (hn : natOfDigits idig < numberOfThermistors) :
    decodeL (tag ++ [' '] ++ idig ++ [' ', ':', ' '] ++ vstr ++ ['C'])
      = .ok (natOfDigits idig) v := by
  obtain ⟨tc, tag', rfl⟩ := List.exists_cons_of_ne_nil htag0
  have htrim : pytrim ((tc :: tag') ++ [' '] ++ idig ++ [' ', ':', ' ']
      ++ vstr ++ ['C']) =
      (tc :: tag') ++ [' '] ++ idig ++ [' ', ':', ' '] ++ vstr ++ ['C'] := by
    have hre : (tc :: tag') ++ [' '] ++ idig ++ [' ', ':', ' ']
        ++ vstr ++ ['C'] =
        (tc :: (tag' ++ [' '] ++ idig ++ [' ', ':', ' '] ++ vstr))
          ++ ['C'] := by
      simp [List.append_assoc]
    rw [hre]
    exact pytrim_sandwich tc _ 'C'
      (htag tc (List.mem_cons_self _ _)).1 (by decide)
  have hne : (tc :: tag') ++ [' '] ++ idig ++ [' ', ':', ' ']
      ++ vstr ++ ['C'] ≠ [] := by
    simp
  have hX : ':' ∉ (tc :: tag') ++ [' '] ++ idig ++ [' '] := by
    intro hm
    simp only [List.mem_append, List.mem_singleton] at hm
    rcases hm with ((hm | hm) | hm) | hm
    · exact (htag ':' hm).2 rfl
    · exact absurd hm (by decide)
    · exact (isDigit_facts ':' (hidig ':' hm)).2.1 rfl
    · exact absurd hm (by decide)
  have hY : ':' ∉ ' ' :: (vstr ++ ['C']) := by
    intro hm
    rcases List.mem_cons.mp hm with hm | hm
    · exact absurd hm (by decide)
    · rcases List.mem_append.mp hm with hm | hm
      · exact (hvch ':' hm).2.1 rfl
      · rw [List.mem_singleton] at hm
        exact absurd hm (by decide)
  have hre2 : (tc :: tag') ++ [' '] ++ idig ++ [' ', ':', ' ']
      ++ vstr ++ ['C'] =
      ((tc :: tag') ++ [' '] ++ idig ++ [' ']) ++
        ':' :: (' ' :: (vstr ++ ['C'])) := by
    simp [List.append_assoc]
  have hsplit : splitOnChar ':' ((tc :: tag') ++ [' '] ++ idig
      ++ [' ', ':', ' '] ++ vstr ++ ['C']) =
      [(tc :: tag') ++ [' '] ++ idig ++ [' '], ' ' :: (vstr ++ ['C'])] := by
    rw [hre2]
    exact splitOnChar_pair ':' _ _ hX hY
  have hp0 : (tc :: tag') ++ [' '] ++ idig ++ [' ']
      = (tc :: tag') ++ ' ' :: (idig ++ [' ']) := by
    simp [List.append_assoc]
  have hpys : pysplit ((tc :: tag') ++ [' '] ++ idig ++ [' '])
      = [tc :: tag', idig] := by
    rw [hp0]
    exact pysplit_two _ _ (by simp) (fun x hx => (htag x hx).1) hidig0
      (fun x hx => (isDigit_facts x (hidig x hx)).1)
  have hfilter : (' ' :: (vstr ++ ['C'])).filter (· ≠ 'C')
      = ' ' :: vstr := by
    rw [List.filter_cons, List.filter_append,
      List.filter_eq_self.mpr
        (fun a ha => decide_eq_true (hvch a ha).2.2)]
    simp
  have htrimv : pytrim (' ' :: vstr) = vstr := by
    rw [pytrim_cons_ws ' ' (by decide)]
    exact pytrim_of_all vstr (fun x hx => (hvch x hx).1)
  have hpi : parseInt idig = some ((natOfDigits idig : ℤ)) :=
    parseInt_digits idig hidig0 hidig
  simp only [decodeL]
  rw [htrim, if_neg hne, hsplit]
  show decodeFields ((tc :: tag') ++ [' '] ++ idig ++ [' '])
    (' ' :: (vstr ++ ['C'])) = ParseResult.ok (natOfDigits idig) v
  simp only [decodeFields]
  rw [hpys]
  show (match parseInt idig with
    | none => ParseResult.valueError
    | some n =>
        match parseRat (pytrim ((' ' :: (vstr ++ ['C'])).filter
            (· ≠ 'C'))) with
        | none => ParseResult.valueError
        | some v =>
            if 0 ≤ n ∧ n < (numberOfThermistors : ℤ) then .ok n.toNat v
            else .sensorOutOfRange) = ParseResult.ok (natOfDigits idig) v
  rw [hpi, hfilter, htrimv, hparse]
  show (if 0 ≤ (natOfDigits idig : ℤ) ∧
      (natOfDigits idig : ℤ) < (numberOfThermistors : ℤ) then
    ParseResult.ok (natOfDigits idig : ℤ).toNat v
  else ParseResult.sensorOutOfRange) = ParseResult.ok (natOfDigits idig) v
  rw [if_pos ⟨Int.natCast_nonneg _, by exact_mod_cast hn⟩]
  simp

/-- **C9**: decode correctness for the configured colon-separated grammar:
a line `<tag> <n> : <v>C` with a sensor index in range and an integer or
fractional decimal value decodes to exactly that sensor and value, the
trailing unit being stripped before numeric parsing. -/
theorem decode_colon_grammar (tag idig ip fp : List Char)
    (htag0 : tag ≠ [])
    (htag : ∀ c ∈ tag, c.isWhitespace = false ∧ c ≠ ':')
    (hidig0 : idig ≠ [])
    (hidig : ∀ c ∈ idig, c.isDigit = true)
    (hip0 : ip ≠ [])
    (hipd : ∀ c ∈ ip, c.isDigit = true)
    (hfpd : ∀ c ∈ fp, c.isDigit = true)
    (hn : natOfDigits idig < numberOfThermistors) :
    decodeL (tag ++ [' '] ++ idig ++ [' ', ':', ' '] ++ ip ++ ['C'])
      = .ok (natOfDigits idig) ((natOfDigits ip : ℚ)) ∧
    decodeL (tag ++ [' '] ++ idig ++ [' ', ':', ' ']
        ++ (ip ++ '.' :: fp) ++ ['C'])
      = .ok (natOfDigits idig) ((natOfDigits ip : ℚ) +
          (natOfDigits fp : ℚ) / (10 : ℚ) ^ fp.length) := by
  obtain ⟨i0, ip', rfl⟩ := List.exists_cons_of_ne_nil hip0
  have hi0 := hipd i0 (List.mem_cons_self _ _)
  constructor
  · refine decodeL_variant_b tag idig (i0 :: ip') _ htag0 htag hidig0 hidig
      ?_ ?_ hn
    · intro c hc
      obtain ⟨hw, hc1, hc2, _, _, _⟩ := isDigit_facts c (hipd c hc)
      exact ⟨hw, hc1, hc2⟩
    · rw [parseRat_digit_head i0 ip' hi0]
      exact parseUnsignedRat_int _ hip0 hipd
  · refine decodeL_variant_b tag idig ((i0 :: ip') ++ '.' :: fp) _ htag0
      htag hidig0 hidig ?_ ?_ hn
    · intro c hc
      rcases List.mem_append.mp hc with hm | hm
      · obtain ⟨hw, hc1, hc2, _, _, _⟩ := isDigit_facts c (hipd c hm)
        exact ⟨hw, hc1, hc2⟩
      · rcases List.mem_cons.mp hm with rfl | hm
        · exact ⟨by decide, by decide, by decide⟩
        · obtain ⟨hw, hc1, hc2, _, _, _⟩ := isDigit_facts c (hfpd c hm)
          exact ⟨hw, hc1, hc2⟩
    · rw [List.cons_append, parseRat_digit_head i0 (ip' ++ '.' :: fp) hi0,
        ← List.cons_append]
      exact parseUnsignedRat_frac _ fp (Or.inl hip0) hipd hfpd

/-- Witness for C9 at the spec's example line `Sensor 3 : 47.5C`. -/
theorem decode_colon_grammar_witness :
    decode "Sensor 3 : 47.5C" =
      ParseResult.ok 3 ((47 : ℚ) + 5 / 10 ^ 1) := by
  have h := (decode_colon_grammar ['S', 'e', 'n', 's', 'o', 'r'] ['3']
    ['4', '7'] ['5'] (by decide) (by decide) (by decide) (by decide)
    (by decide) (by decide) (by decide) (by decide)).2
  have he : "Sensor 3 : 47.5C".toList =
      ['S', 'e', 'n', 's', 'o', 'r'] ++ [' '] ++ ['3'] ++ [' ', ':', ' ']
        ++ (['4', '7'] ++ '.' :: ['5']) ++ ['C'] := by
    decide
  rw [decode, he, h]
  have e1 : natOfDigits ['3'] = 3 := by decide
  have e2 : natOfDigits ['4', '7'] = 47 := by decide
  have e3 : natOfDigits ['5'] = 5 := by decide
  rw [e1, e2, e3]
  congr 1

end TempWatch
